import Mathlib

/-!
# agitlink: offset-to-line mapping, link composition and window reading

A shallow embedding of `main.go`.  Byte buffers (`[]byte`) are lists of
`Fin 256`; Go `int` values are `Int` (every counter below is bounded by the
length of a buffer, so no wrap-around is involved); Go `string` values that
hold text (tag, remote URL, link) are lists of Unicode code points.
-/

namespace Agitlink

/-! ## `unicode/utf8` (Go standard library), as used by `lineNumber` -/

/-- A Go `byte`. -/
abbrev Byte := Fin 256

/-- The constant `utf8.RuneError` (U+FFFD). -/
def RuneError : Int := 0xFFFD

/-- Entry `xx` of the `first` table: invalid, size 1. -/
def xx : Nat := 0xF1
/-- Entry `as` of the `first` table: ASCII, size 1. -/
def as : Nat := 0xF0
/-- Entry `s1`: accept range 0, size 2. -/
def s1 : Nat := 0x02
/-- Entry `s2`: accept range 1, size 3. -/
def s2 : Nat := 0x13
/-- Entry `s3`: accept range 0, size 3. -/
def s3 : Nat := 0x03
/-- Entry `s4`: accept range 2, size 3. -/
def s4 : Nat := 0x23
/-- Entry `s5`: accept range 3, size 4. -/
def s5 : Nat := 0x34
/-- Entry `s6`: accept range 0, size 4. -/
def s6 : Nat := 0x04
/-- Entry `s7`: accept range 4, size 4. -/
def s7 : Nat := 0x44

/-- The table `utf8.first`: information about the first byte of an encoding,
rows 0x00-0x7F, 0x80-0xC1, 0xC2-0xDF, 0xE0, 0xE1-0xEC, 0xED, 0xEE-0xEF, 0xF0,
0xF1-0xF3, 0xF4, 0xF5-0xFF. -/
def firstTable : List Nat :=
  List.replicate 128 as ++ List.replicate 66 xx ++ List.replicate 30 s1 ++ [s2] ++
  List.replicate 12 s3 ++ [s4] ++ List.replicate 2 s3 ++ [s5] ++ List.replicate 3 s6 ++ [s7] ++
  List.replicate 11 xx

/-- The lookup `first[p0]`. -/
def first (p0 : Byte) : Nat := firstTable.getD p0.val xx

/-- The table `utf8.acceptRanges`: bounds `(lo, hi)` on the second byte. -/
def acceptRanges (i : Nat) : Nat × Nat :=
  match i with
  | 0 => (0x80, 0xBF)
  | 1 => (0xA0, 0xBF)
  | 2 => (0x80, 0x9F)
  | 3 => (0x90, 0xBF)
  | 4 => (0x80, 0x8F)
  | _ => (0, 0)

/-- The function `utf8.DecodeRune`: the first rune of `p` and its width in bytes;
`(RuneError, 0)` on an empty buffer and `(RuneError, 1)` on an invalid encoding.
The accesses `p[1]`, `p[2]`, `p[3]` are guarded by `n < sz` exactly as in Go. -/
def DecodeRune (p : List Byte) : Int × Nat :=
  let n := p.length
  if n < 1 then (RuneError, 0)
  else
    let p0 : Nat := (p.getD 0 0).val
    let x := first (p.getD 0 0)
    if x ≥ as then
      -- mask is all ones exactly when the low bit of x is set (x = xx)
      (if x % 2 = 1 then RuneError else (p0 : Int), 1)
    else
      let sz := x &&& 7
      let accept := acceptRanges (x >>> 4)
      if n < sz then (RuneError, 1)
      else
        let b1 : Nat := (p.getD 1 0).val
        if b1 < accept.1 ∨ accept.2 < b1 then (RuneError, 1)
        else if sz ≤ 2 then ((((p0 &&& 0x1F) <<< 6 ||| (b1 &&& 0x3F) : Nat) : Int), 2)
        else
          let b2 : Nat := (p.getD 2 0).val
          if b2 < 0x80 ∨ 0xBF < b2 then (RuneError, 1)
          else if sz ≤ 3 then
            ((((p0 &&& 0x0F) <<< 12 ||| (b1 &&& 0x3F) <<< 6 ||| (b2 &&& 0x3F) : Nat) : Int), 3)
          else
            let b3 : Nat := (p.getD 3 0).val
            if b3 < 0x80 ∨ 0xBF < b3 then (RuneError, 1)
            else
              ((((p0 &&& 0x07) <<< 18 ||| (b1 &&& 0x3F) <<< 12 ||| (b2 &&& 0x3F) <<< 6 |||
                (b3 &&& 0x3F) : Nat) : Int), 4)

/-! ## `lineNumber` -/

/-- The loop of `lineNumber` (lines 181-194) followed by its tail (lines 195-200).
One unit of fuel is one evaluation of the loop condition; `none` means the fuel ran
out before the function returned. -/
def lineNumberLoop : Nat → List Byte → Int → Bool → Int → Int → Option Int
  | 0, _, _, _, _, _ => none
  | fuel + 1, data, runeOffset, start, line, off =>
    if data.length > 0 then
      if start && decide (off ≥ runeOffset) then some line
      else
        let rn := DecodeRune data
        let data1 := data.drop rn.2
        let off1 := off + 1
        if !start && decide (off1 ≥ runeOffset) then some line
        else
          lineNumberLoop fuel data1 runeOffset start (if rn.1 = 10 then line + 1 else line) off1
    else
      some (if line > 1 then line - 1 else line)

/-- The function `lineNumber(data, runeOffset, start)`, run with `len(data) + 1` units
of fuel (each iteration removes at least one byte, so this is always enough: see
`lineNumberLoop_fuel` and `lineNumber_isSome`). -/
def lineNumber (data : List Byte) (runeOffset : Int) (start : Bool) : Option Int :=
  lineNumberLoop (data.length + 1) data runeOffset start 1 0

/-- The bytes of an ASCII text, for writing test buffers. -/
def asciiBytes (s : String) : List Byte := s.toList.map (fun c => Fin.ofNat c.toNat)

/-! ## Reference definitions used by the statements -/

/-- Successive decoding of at most `fuel` runes of `p` with `utf8.DecodeRune`
(an invalid byte is one rune, `RuneError`). -/
def runesAux : Nat → List Byte → List Int
  | 0, _ => []
  | fuel + 1, p =>
    if p.length > 0 then (DecodeRune p).1 :: runesAux fuel (p.drop (DecodeRune p).2) else []

/-- The runes of `p`: successive decoding until the buffer is exhausted (a buffer of
`len` bytes holds at most `len` runes; see `runesAux_fuel`). -/
def runes (p : List Byte) : List Int := runesAux p.length p

/-- Number of newline runes in a list of runes. -/
def countNL (rs : List Int) : Nat := rs.count 10

/-- The scan of `lineNumber` replayed over an already decoded list of runes. -/
def scanRunes (runeOffset : Int) (start : Bool) : List Int → Int → Int → Int
  | [], line, _ => if line > 1 then line - 1 else line
  | r :: rs, line, off =>
    if start && decide (off ≥ runeOffset) then line
    else if !start && decide (off + 1 ≥ runeOffset) then line
    else scanRunes runeOffset start rs (if r = 10 then line + 1 else line) (off + 1)

/-- The 1-based line containing rune `i` of a list of runes: one more than the number
of newlines before it. -/
def lineOfRune (rs : List Int) (i : Nat) : Int := 1 + (countNL (rs.take i) : Int)

/-! ## Strings, errors and `fmt` -/

/-- A Go `string` holding text, as its sequence of code points. -/
abbrev GoString := List Char

/-- The Go `error` values that occur: `fmt.Errorf` with a fixed text, `fmt.Errorf` that
wraps a cause after a context, the two `fmt.Errorf` calls with quoted arguments,
`io.EOF`, and an error made by a collaborator (acme, git, strconv). -/
inductive Error where
  | msg (text : String)
  | wrap (context : String) (cause : Error)
  | unexpectedPrefix (s want : GoString)
  | invalidWinid (winid : GoString)
  | EOF
  | external (text : String)
  deriving DecidableEq

/-- An operand of `fmt.Sprintf`. -/
inductive Arg where
  | str (s : GoString)
  | int (i : Int)

/-- The verb `%d` applied to an `int`: decimal digits, with a leading minus sign for a
negative number. -/
def formatInt (i : Int) : GoString := (toString i).toList

/-- The function `fmt.Sprintf`, for the verbs `main1` uses: `%s` with a string operand
and `%d` with an integer operand; every other character of the format is copied. -/
def Sprintf : List Char → List Arg → GoString
  | [], _ => []
  | [c], _ => [c]
  | c :: v :: rest, args =>
    if c = '%' ∧ v = 's' then
      match args with
      | Arg.str s :: args1 => s ++ Sprintf rest args1
      | _ => c :: v :: Sprintf rest args
    else if c = '%' ∧ v = 'd' then
      match args with
      | Arg.int i :: args1 => formatInt i ++ Sprintf rest args1
      | _ => c :: v :: Sprintf rest args
    else c :: Sprintf (v :: rest) args

/-- Lines 43-48 of `main1`: the link for a repository, a commit, a path and the two
line numbers. -/
def linkURL (gitRepo gitCommit relPath : GoString) (l0 l1 : Int) : GoString :=
  let url := Sprintf "https://github.com/%s/blob/%s/%s".toList
    [Arg.str gitRepo, Arg.str gitCommit, Arg.str relPath]
  if l1 > l0 then url ++ Sprintf "#L%d-L%d".toList [Arg.int l0, Arg.int l1]
  else url ++ Sprintf "#L%d".toList [Arg.int l0]

/-! ## `strings` (Go standard library), as used by `repo` and `acmeReadCurrentFile` -/

/-- The built-in `len` of a string: its length in bytes (UTF-8). -/
def len (s : GoString) : Nat := (s.map Char.utf8Size).sum

/-- The function `strings.TrimPrefix`. -/
def TrimPrefix (s pre : GoString) : GoString :=
  if pre.isPrefixOf s then s.drop pre.length else s

/-- The function `unicode.IsSpace`: the Latin-1 spaces and the `White_Space` table. -/
def IsSpace (c : Char) : Bool :=
  let r := c.toNat
  if r ≤ 0xFF then
    r = 0x09 ∨ r = 0x0A ∨ r = 0x0B ∨ r = 0x0C ∨ r = 0x0D ∨ r = 0x20 ∨ r = 0x85 ∨ r = 0xA0
  else
    r = 0x1680 ∨ (0x2000 ≤ r ∧ r ≤ 0x200A) ∨ r = 0x2028 ∨ r = 0x2029 ∨ r = 0x202F ∨
      r = 0x205F ∨ r = 0x3000

/-- The function `strings.TrimSpace`: leading and trailing white space removed. -/
def TrimSpace (s : GoString) : GoString :=
  ((s.dropWhile IsSpace).reverse.dropWhile IsSpace).reverse

/-- The search of `strings.Index`, with the position of the head of the remaining text
in `i`: the position of the first occurrence of `sep`, or `-1`.  Positions count code
points; the separator searched by the program is the ASCII space, before which a slice
`tag[0:i]` is the same text whether `i` counts bytes or code points. -/
def IndexFrom (sep : GoString) : GoString → Int → Int
  | [], i => if sep = [] then i else -1
  | c :: cs, i => if sep.isPrefixOf (c :: cs) then i else IndexFrom sep cs (i + 1)

/-- The function `strings.Index`. -/
def Index (s sep : GoString) : Int := IndexFrom sep s 0

/-! ## The collaborators: acme window, git, environment -/

/-- One answer of `win.Read("body", buf)`: the bytes the transport delivers and the
error it reports. -/
structure ReadReply where
  data : List Byte
  err : Option Error

/-- The state of the caller after `win.Read("body", buf)`: the count `n`, the buffer
and the error. -/
structure ReadResult where
  n : Nat
  buf : List Byte
  err : Option Error

/-- The call `win.Read("body", buf)`: at most `len(buf)` bytes are copied to the front
of `buf`, and their number is returned with the error. -/
def winRead (reply : ReadReply) (buf : List Byte) : ReadResult :=
  let n := min reply.data.length buf.length
  { n := n, buf := reply.data.take n ++ buf.drop n, err := reply.err }

/-- An open acme window (`*acme.Win`): what each operation used by the program
answers.  `body i` is the answer to the `i`-th read of the body file. -/
structure Win where
  readAddr1 : Except Error (Int × Int)
  ctl : Except Error Unit
  readAddr2 : Except Error (Int × Int)
  body : Nat → ReadReply
  tag : Except Error GoString

/-- Everything outside the program: the environment variable, `strconv.Atoi`,
`acme.Open`, the three git commands (standard output or error, by working directory),
and the path functions of the standard library. -/
structure Host where
  winid : GoString
  Atoi : GoString → Except Error Int
  acmeOpen : Int → Except Error Win
  gitRemoteGetUrl : GoString → Except Error GoString
  gitShowPrefix : GoString → Except Error GoString
  gitRevParseHead : GoString → Except Error GoString
  filepathDir : GoString → GoString
  filepathBase : GoString → GoString
  pathJoin : GoString → GoString → GoString

/-! ## The program -/

/-- The constant `remotePrefix`. -/
def remotePrefix : GoString := "git@github.com:".toList

/-- The function `repo(dir)`. -/
def repo (h : Host) (dir : GoString) : Except Error GoString :=
  match h.gitRemoteGetUrl dir with
  | .error err => .error err
  | .ok s =>
    let s1 := TrimPrefix s remotePrefix
    if len s1 = len s then .error (Error.unexpectedPrefix s remotePrefix)
    else .ok (TrimSpace s1)

/-- The function `relativeFilename(f)`. -/
def relativeFilename (h : Host) (f : GoString) : Except Error GoString :=
  match h.gitShowPrefix (h.filepathDir f) with
  | .error err => .error err
  | .ok out => .ok (h.pathJoin (TrimSpace out) (h.filepathBase f))

/-- The function `commit(f)`. -/
def commit (h : Host) (f : GoString) : Except Error GoString :=
  match h.gitRevParseHead (h.filepathDir f) with
  | .error err => .error err
  | .ok out => .ok (TrimSpace out)

/-- The type `acmeFile`. -/
structure acmeFile where
  name : GoString
  body : List Byte
  runeOffset0 : Int
  runeOffset1 : Int
  deriving DecidableEq

/-- The loop of `readBody`: `i` reads have been made, `buf` is the request buffer and
`body` the bytes gathered so far.  One unit of fuel is one read; `none` means the fuel
ran out before the function returned. -/
def readBodyLoop (read : Nat → ReadReply) : Nat → Nat → List Byte → List Byte →
    Option (Except Error (List Byte))
  | 0, _, _, _ => none
  | fuel + 1, i, buf, body =>
    let r := winRead (read i) buf
    if r.err = some Error.EOF then some (.ok body)
    else
      match r.err with
      | some err => some (.error err)
      | none => readBodyLoop read fuel (i + 1) r.buf (body ++ r.buf.take r.n)

/-- The function `readBody(win)`, with a request buffer of 8000 bytes. -/
def readBody (fuel : Nat) (win : Win) : Option (Except Error (List Byte)) :=
  readBodyLoop win.body fuel 0 (List.replicate 8000 0) []

/-- The function `acmeCurrentWin()`. -/
def acmeCurrentWin (h : Host) : Except Error Win :=
  if h.winid = [] then .error (Error.msg "$winid not set - not running inside acme?")
  else
    match h.Atoi h.winid with
    | .error _ => .error (Error.invalidWinid h.winid)
    | .ok id =>
      match h.acmeOpen id with
      | .error err => .error (Error.wrap "cannot open acme window" err)
      | .ok win => .ok win

/-- The function `acmeReadCurrentFile()`; `fuel` bounds the reads of the body. -/
def acmeReadCurrentFile (h : Host) (fuel : Nat) : Option (Except Error acmeFile) :=
  match acmeCurrentWin h with
  | .error err => some (.error err)
  | .ok win =>
    match win.readAddr1 with
    | .error err => some (.error (Error.wrap "cannot read address" err))
    | .ok _ =>
      match win.ctl with
      | .error err => some (.error (Error.wrap "cannot set addr=dot" err))
      | .ok _ =>
        match win.readAddr2 with
        | .error err => some (.error (Error.wrap "cannot read address" err))
        | .ok (q0, q1) =>
          match readBody fuel win with
          | none => none
          | some (.error err) => some (.error (Error.wrap "cannot read body" err))
          | some (.ok body) =>
            match win.tag with
            | .error err => some (.error (Error.wrap "cannot read tag" err))
            | .ok tag =>
              let i := Index tag " ".toList
              if i = -1 then some (.error (Error.msg "strange tag with no spaces"))
              else
                some (.ok { name := tag.take i.toNat, body := body,
                            runeOffset0 := q0, runeOffset1 := q1 })

/-- What a run of `main1` leaves behind: the text printed on standard output and the
error returned. -/
structure Outcome where
  stdout : GoString
  err : Option Error
  deriving DecidableEq

/-- The function `main1()`. -/
def main1 (h : Host) (fuel : Nat) : Option Outcome :=
  match acmeReadCurrentFile h fuel with
  | none => none
  | some (.error err) => some { stdout := [], err := some err }
  | some (.ok f) =>
    match repo h (h.filepathDir f.name) with
    | .error err => some { stdout := [], err := some (Error.wrap "cannot get repo" err) }
    | .ok gitRepo =>
      match relativeFilename h f.name with
      | .error err =>
        some { stdout := [], err := some (Error.wrap "cannot get relative path" err) }
      | .ok relPath =>
        match commit h f.name with
        | .error err => some { stdout := [], err := some (Error.wrap "cannot get commit" err) }
        | .ok gitCommit =>
          match lineNumber f.body f.runeOffset0 true, lineNumber f.body f.runeOffset1 false with
          | some l0, some l1 =>
            some { stdout := Sprintf "%s\n".toList [Arg.str (linkURL gitRepo gitCommit relPath l0 l1)],
                   err := none }
          | _, _ => none

/-- The transport of the chunked-read test: the reads are answered with the chunks of
`cs` in turn, without error, and every later read reports `final`. -/
def scripted (cs : List (List Byte)) (final : Error) (i : Nat) : ReadReply :=
  match cs.get? i with
  | some c => { data := c, err := none }
  | none => { data := [], err := some final }

/-- The buffer of the line-range examples. -/
def oneTwoThree : List Byte := asciiBytes "one\ntwo\nthree\n"

/-- The link without its line fragment, as the specification writes it:
`https://github.com/<repo>/blob/<commit>/<relPath>`. -/
def blobURL (gitRepo gitCommit relPath : GoString) : GoString :=
  "https://github.com/".toList ++ gitRepo ++ "/blob/".toList ++ gitCommit ++ "/".toList ++ relPath

/-- A window for the examples: the selection is runes 4 to 13, the body arrives in two
chunks, and the tag is given. -/
def exampleWin (tag : GoString) : Win :=
  { readAddr1 := .ok (0, 0)
    ctl := .ok ()
    readAddr2 := .ok (4, 13)
    body := scripted [asciiBytes "one\ntwo\n", asciiBytes "three\n"] Error.EOF
    tag := .ok tag }

/-- A host for the examples, with the given tag and remote URL. -/
def exampleHost (tag remote : GoString) : Host :=
  { winid := "1".toList
    Atoi := fun _ => .ok 1
    acmeOpen := fun _ => .ok (exampleWin tag)
    gitRemoteGetUrl := fun _ => .ok remote
    gitShowPrefix := fun _ => .ok "cmd/\n".toList
    gitRevParseHead := fun _ => .ok "c0ffee\n".toList
    filepathDir := fun f => f
    filepathBase := fun f => f
    pathJoin := fun a b => a ++ b }

/-- A window on "one\ntwo\nthree\n" whose selection is runes `q0` to `q1`: the body
arrives in two chunks and the tag names `/src/cmd/main.go`. -/
def selectionWin (q0 q1 : Int) : Win :=
  { readAddr1 := .ok (0, 0)
    ctl := .ok ()
    readAddr2 := .ok (q0, q1)
    body := scripted [asciiBytes "one\ntwo\n", asciiBytes "three\n"] Error.EOF
    tag := .ok "/src/cmd/main.go Del Snarf | Look ".toList }

/-- A host whose window is `selectionWin q0 q1`, in a checkout of `owner/repo` at commit
`c0ffee` with the file in directory `cmd/`. -/
def selectionHost (q0 q1 : Int) : Host :=
  { winid := "7".toList
    Atoi := fun _ => .ok 7
    acmeOpen := fun _ => .ok (selectionWin q0 q1)
    gitRemoteGetUrl := fun _ => .ok "git@github.com:owner/repo\n".toList
    gitShowPrefix := fun _ => .ok "cmd/\n".toList
    gitRevParseHead := fun _ => .ok "c0ffee\n".toList
    filepathDir := fun _ => "/src/cmd".toList
    filepathBase := fun _ => "main.go".toList
    pathJoin := fun a b => a ++ b }

/-! ## Facts about `DecodeRune` and the fuel -/

set_option maxRecDepth 100000 in
theorem first_size (b : Byte) : first b < as → 2 ≤ first b &&& 7 := by
  revert b
  decide

theorem DecodeRune_size (p : List Byte) (hp : 0 < p.length) :
    1 ≤ (DecodeRune p).2 ∧ (DecodeRune p).2 ≤ p.length := by
  have hf := first_size (p.getD 0 0)
  unfold DecodeRune
  simp only []
  split_ifs <;> simp <;> omega

/-- Sample decodings: a three-byte encoding, an overlong encoding (invalid, one byte),
a newline, and a truncated encoding. -/
theorem DecodeRune_samples :
    DecodeRune [0xE2, 0x82, 0xAC] = (0x20AC, 3) ∧ DecodeRune [0xC0, 0x80] = (RuneError, 1) ∧
    DecodeRune [10] = (10, 1) ∧ DecodeRune [0xE2, 0x82] = (RuneError, 1) ∧
    DecodeRune [] = (RuneError, 0) := by
  decide

theorem runesAux_fuel : ∀ (f1 f2 : Nat) (p : List Byte), p.length ≤ f1 → p.length ≤ f2 →
    runesAux f1 p = runesAux f2 p := by
  intro f1
  induction f1 with
  | zero =>
    intro f2 p h1 _
    have hp : p = [] := List.length_eq_zero.mp (by omega)
    subst hp
    cases f2 <;> simp [runesAux]
  | succ f1 ih =>
    intro f2 p h1 h2
    cases f2 with
    | zero =>
      have hp : p = [] := List.length_eq_zero.mp (by omega)
      subst hp
      simp [runesAux]
    | succ f2 =>
      by_cases hp : 0 < p.length
      · have hs := DecodeRune_size p hp
        simp only [runesAux, hp, if_true]
        rw [ih f2 _ (by simp; omega) (by simp; omega)]
      · simp [runesAux, hp]

theorem runes_nil : runes [] = [] := by
  simp [runes, runesAux]

theorem runes_cons (p : List Byte) (hp : 0 < p.length) :
    runes p = (DecodeRune p).1 :: runes (p.drop (DecodeRune p).2) := by
  have hs := DecodeRune_size p hp
  unfold runes
  obtain ⟨n, hn⟩ : ∃ n, p.length = n + 1 := ⟨p.length - 1, by omega⟩
  rw [hn]
  simp only [runesAux, hp, if_true]
  rw [runesAux_fuel n _ _ (by simp; omega) (le_refl _)]

theorem lineNumberLoop_scan : ∀ (fuel : Nat) (data : List Byte) (ro : Int) (start : Bool)
    (line off : Int), data.length < fuel →
    lineNumberLoop fuel data ro start line off = some (scanRunes ro start (runes data) line off) := by
  intro fuel
  induction fuel with
  | zero => intro data ro start line off h; omega
  | succ fuel ih =>
    intro data ro start line off h
    by_cases hp : 0 < data.length
    · have hs := DecodeRune_size data hp
      rw [runes_cons data hp]
      simp only [lineNumberLoop, hp, if_true, scanRunes]
      split_ifs <;> first | rfl | exact ih _ _ _ _ _ (by simp; omega)
    · have hd : data = [] := List.length_eq_zero.mp (by omega)
      subst hd
      simp [lineNumberLoop, runes_nil, scanRunes]

/-- Any amount of fuel above `len(data)` gives the same result as the fuel `lineNumber`
uses: the function terminates within `len(data) + 1` evaluations of the loop condition. -/
theorem lineNumberLoop_fuel (fuel : Nat) (data : List Byte) (ro : Int) (start : Bool)
    (h : data.length < fuel) :
    lineNumberLoop fuel data ro start 1 0 = lineNumber data ro start := by
  rw [lineNumber, lineNumberLoop_scan _ _ _ _ _ _ h, lineNumberLoop_scan _ _ _ _ _ _ (by omega)]

theorem lineNumber_scan (data : List Byte) (ro : Int) (start : Bool) :
    lineNumber data ro start = some (scanRunes ro start (runes data) 1 0) :=
  lineNumberLoop_scan _ _ _ _ _ _ (by omega)

/-- The function `lineNumber` returns on every input. -/
theorem lineNumber_isSome (data : List Byte) (ro : Int) (start : Bool) :
    (lineNumber data ro start).isSome = true := by
  simp [lineNumber_scan]

/-! ## The scan over runes -/

theorem countNL_cons (r : Int) (rs : List Int) :
    (countNL (r :: rs) : Int) = (if r = 10 then 1 else 0) + countNL rs := by
  unfold countNL
  rw [List.count_cons]
  by_cases h : r = 10 <;> simp [h]
  omega

theorem countNL_take_le (rs : List Int) (i j : Nat) (h : i ≤ j) :
    countNL (rs.take i) ≤ countNL (rs.take j) := by
  unfold countNL
  have hs : (rs.take i).Sublist (rs.take j) := by
    have : rs.take i = (rs.take j).take i := by
      rw [List.take_take, Nat.min_eq_left h]
    rw [this]
    exact List.take_sublist _ _
  exact hs.count_le _

theorem countNL_take_le_all (rs : List Int) (i : Nat) : countNL (rs.take i) ≤ countNL rs := by
  unfold countNL
  exact (List.take_sublist _ _).count_le _

/-- Start mode, offset inside the buffer: the scan stops before rune `d`. -/
theorem scan_start_in : ∀ (rs : List Int) (line off : Int) (d : Nat), d < rs.length →
    scanRunes (off + d) true rs line off = line + countNL (rs.take d) := by
  intro rs
  induction rs with
  | nil => intro line off d h; simp at h
  | cons r rs ih =>
    intro line off d h
    cases d with
    | zero => simp [scanRunes, countNL]
    | succ d =>
      have h1 : ¬ (off ≥ off + ((d + 1 : Nat) : Int)) := by push_cast; omega
      have h2 : off + ((d + 1 : Nat) : Int) = (off + 1) + (d : Int) := by push_cast; ring
      simp only [scanRunes, Bool.true_and, decide_eq_true_eq, h1, if_false, Bool.not_true,
        Bool.false_and, Bool.false_eq_true, List.take_succ_cons]
      rw [h2, ih _ _ d (by simpa using h), countNL_cons]
      split_ifs <;> ring

/-- End mode, offset inside the buffer: the scan stops after consuming rune `i`, where
`i` is the first index with `off + i + 1 ≥ ro`. -/
theorem scan_end_in : ∀ (rs : List Int) (line off ro : Int) (i : Nat), i < rs.length →
    ro ≤ off + i + 1 → (i = 0 ∨ off + i < ro) →
    scanRunes ro false rs line off = line + countNL (rs.take i) := by
  intro rs
  induction rs with
  | nil => intro line off ro i h; simp at h
  | cons r rs ih =>
    intro line off ro i h h1 h2
    cases i with
    | zero =>
      have : off + 1 ≥ ro := by simpa using h1
      simp [scanRunes, countNL, this]
    | succ i =>
      have h3 : ¬ (off + 1 ≥ ro) := by
        rcases h2 with h2 | h2
        · omega
        · push_cast at h2; omega
      simp only [scanRunes, Bool.false_and, Bool.false_eq_true, if_false, Bool.not_false,
        Bool.true_and, decide_eq_true_eq, h3, List.take_succ_cons]
      have h4 : off + ((i + 1 : Nat) : Int) < ro := by
        rcases h2 with h2 | h2
        · omega
        · exact h2
      push_cast at h1 h4
      rw [ih _ (off + 1) ro i (by simpa using h) (by omega) (Or.inr (by omega)), countNL_cons]
      split_ifs <;> ring

/-- The scan runs to the end of the buffer: start mode with `off + len ≤ ro`, end mode
with `off + len < ro`. -/
theorem scan_fall : ∀ (rs : List Int) (start : Bool) (line off ro : Int),
    (start = true → off + rs.length ≤ ro) → (start = false → off + rs.length < ro) →
    scanRunes ro start rs line off =
      if line + countNL rs > 1 then line + countNL rs - 1 else line + countNL rs := by
  intro rs
  induction rs with
  | nil => intro start line off ro _ _; simp [scanRunes, countNL]
  | cons r rs ih =>
    intro start line off ro h1 h2
    cases start with
    | true =>
      have h := h1 rfl
      simp only [List.length_cons] at h
      push_cast at h
      have h3 : ¬ (off ≥ ro) := by omega
      simp only [scanRunes, Bool.true_and, decide_eq_true_eq, h3, if_false, Bool.not_true,
        Bool.false_and, Bool.false_eq_true]
      rw [ih true _ (off + 1) ro (fun _ => by omega) (fun h => by simp at h), countNL_cons]
      split_ifs <;> omega
    | false =>
      have h := h2 rfl
      simp only [List.length_cons] at h
      push_cast at h
      have h3 : ¬ (off + 1 ≥ ro) := by omega
      simp only [scanRunes, Bool.false_and, Bool.false_eq_true, if_false, Bool.not_false,
        Bool.true_and, decide_eq_true_eq, h3]
      rw [ih false _ (off + 1) ro (fun h => by simp at h) (fun _ => by omega), countNL_cons]
      split_ifs <;> omega

theorem countNL_take_succ_le (rs : List Int) (i : Nat) :
    countNL (rs.take (i + 1)) ≤ countNL (rs.take i) + 1 := by
  unfold countNL
  rw [List.take_succ, List.count_append]
  have : List.count 10 rs[i]?.toList ≤ 1 := by
    cases rs[i]? with
    | none => simp
    | some a => simp [List.count_cons]; split_ifs <;> omega
  omega

theorem countNL_take_add (rs : List Int) (i n : Nat) :
    countNL (rs.take (i + n)) = countNL (rs.take i) + countNL ((rs.drop i).take n) := by
  unfold countNL
  rw [List.take_add, List.count_append]

theorem runes_length_pos (b : List Byte) (hb : b ≠ []) : 0 < (runes b).length := by
  have hp : 0 < b.length := List.length_pos.mpr hb
  rw [runes_cons b hp]
  simp

/-- Start mode inside the buffer, on `lineNumber`. -/
theorem lineNumber_start_in (b : List Byte) (o : Nat) (h : o < (runes b).length) :
    lineNumber b (o : Int) true = some (lineOfRune (runes b) o) := by
  rw [lineNumber_scan]
  have := scan_start_in (runes b) 1 0 o h
  rw [zero_add] at this
  rw [this, lineOfRune]

/-- End mode inside the buffer, on `lineNumber`. -/
theorem lineNumber_end_in (b : List Byte) (o : Nat) (hb : 0 < (runes b).length)
    (h : o ≤ (runes b).length) :
    lineNumber b (o : Int) false = some (lineOfRune (runes b) (max o 1 - 1)) := by
  rw [lineNumber_scan]
  have := scan_end_in (runes b) 1 0 (o : Int) (max o 1 - 1) (by omega) (by omega) (by omega)
  rw [this, lineOfRune]

/-- The scan runs off the end of the buffer, on `lineNumber`. -/
theorem lineNumber_fall (b : List Byte) (o : Int) (start : Bool)
    (h1 : start = true → ((runes b).length : Int) ≤ o)
    (h2 : start = false → ((runes b).length : Int) < o) :
    lineNumber b o start =
      some (if 1 ≤ countNL (runes b) then (countNL (runes b) : Int) else 1) := by
  rw [lineNumber_scan, scan_fall (runes b) start 1 0 o (by simpa using h1) (by simpa using h2)]
  congr 1
  split_ifs <;> omega

/-- Inside the buffer the line number does not decrease with the offset: start mode
for offsets below `N`, end mode (non-empty buffer) for offsets up to `N`. -/
theorem lineNumber_monotone_inside (b : List Byte) (o1 o2 : Nat) (h : o1 ≤ o2) :
    (o2 < (runes b).length → ∃ l1 l2 : Int, lineNumber b (o1 : Int) true = some l1 ∧
      lineNumber b (o2 : Int) true = some l2 ∧ l1 ≤ l2) ∧
    (0 < (runes b).length → o2 ≤ (runes b).length → ∃ l1 l2 : Int,
      lineNumber b (o1 : Int) false = some l1 ∧ lineNumber b (o2 : Int) false = some l2 ∧
      l1 ≤ l2) := by
  constructor
  · intro h2
    refine ⟨_, _, lineNumber_start_in b o1 (by omega), lineNumber_start_in b o2 h2, ?_⟩
    have := countNL_take_le (runes b) o1 o2 h
    simp only [lineOfRune]
    omega
  · intro hpos h2
    refine ⟨_, _, lineNumber_end_in b o1 hpos (by omega), lineNumber_end_in b o2 hpos h2, ?_⟩
    have := countNL_take_le (runes b) (max o1 1 - 1) (max o2 1 - 1) (by omega)
    simp only [lineOfRune]
    omega

theorem lineOfRune_succ_newline (rs : List Int) (j : Nat) (h : rs[j]? = some 10) :
    lineOfRune rs (j + 1) = lineOfRune rs j + 1 := by
  simp only [lineOfRune, countNL, List.take_succ, h, List.count_append]
  simp
  ring

/-- The start line of offset `s`, by position of the offset: inside the buffer, or at or
beyond its end (`k` newlines in the buffer). -/
theorem startLine_cases (b : List Byte) (s : Nat) :
    ∃ l0 : Int, lineNumber b (s : Int) true = some l0 ∧
      (s < (runes b).length → l0 = 1 + (countNL ((runes b).take s) : Int)) ∧
      ((runes b).length ≤ s → 1 ≤ countNL (runes b) → l0 = (countNL (runes b) : Int)) ∧
      ((runes b).length ≤ s → countNL (runes b) = 0 → l0 = 1) := by
  by_cases hs : s < (runes b).length
  · exact ⟨_, lineNumber_start_in b s hs, fun _ => rfl, fun h => by omega, fun h => by omega⟩
  · refine ⟨_, lineNumber_fall b s true (fun _ => by omega) (fun h => by simp at h),
      fun h => by omega, ?_, ?_⟩
    · intro _ hk
      rw [if_pos hk]
    · intro _ hk
      rw [if_neg (by omega)]

/-- The end line of offset `e`, by position of the offset: up to the end of a non-empty
buffer, or beyond the end (or in an empty buffer). -/
theorem endLine_cases (b : List Byte) (e : Nat) :
    ∃ l1 : Int, lineNumber b (e : Int) false = some l1 ∧
      (0 < (runes b).length → e ≤ (runes b).length →
        l1 = 1 + (countNL ((runes b).take (max e 1 - 1)) : Int)) ∧
      ((runes b).length < e ∨ (runes b).length = 0 → 1 ≤ countNL (runes b) →
        l1 = (countNL (runes b) : Int)) ∧
      ((runes b).length < e ∨ (runes b).length = 0 → countNL (runes b) = 0 → l1 = 1) := by
  by_cases hN : (runes b).length = 0
  · have hr : runes b = [] := List.length_eq_zero.mp hN
    refine ⟨1, by simp [lineNumber_scan, hr, scanRunes], fun h => by omega, ?_, fun _ _ => rfl⟩
    intro _ hk
    simp [hr, countNL] at hk
  · by_cases he : e ≤ (runes b).length
    · exact ⟨_, lineNumber_end_in b e (by omega) he, fun _ _ => rfl, fun h => by omega,
        fun h => by omega⟩
    · refine ⟨_, lineNumber_fall b e false (fun h => by simp at h) (fun _ => by omega),
        fun _ h => by omega, ?_, ?_⟩
      · intro _ hk
        rw [if_pos hk]
      · intro _ hk
        rw [if_neg (by omega)]

/-! ## The link -/

theorem Sprintf_blob (gitRepo gitCommit relPath : GoString) :
    Sprintf "https://github.com/%s/blob/%s/%s".toList
      [Arg.str gitRepo, Arg.str gitCommit, Arg.str relPath] = blobURL gitRepo gitCommit relPath := by
  simp [Sprintf, blobURL]

theorem linkURL_eq (gitRepo gitCommit relPath : GoString) (l0 l1 : Int) :
    linkURL gitRepo gitCommit relPath l0 l1 =
      blobURL gitRepo gitCommit relPath ++
        (if l1 > l0 then "#L".toList ++ formatInt l0 ++ "-L".toList ++ formatInt l1
         else "#L".toList ++ formatInt l0) := by
  unfold linkURL
  simp only [Sprintf_blob]
  split_ifs <;> simp [Sprintf]

/-! ## Runs of `main1` -/

/-- A run of `main1` in which the window is read and the three git commands succeed
prints the link for the two line numbers, followed by a newline, and returns no
error. -/
theorem main1_prints (h : Host) (fuel : Nat) (f : acmeFile)
    (gitRepo relPath gitCommit : GoString) (l0 l1 : Int)
    (hf : acmeReadCurrentFile h fuel = some (.ok f))
    (hr : repo h (h.filepathDir f.name) = .ok gitRepo)
    (hp : relativeFilename h f.name = .ok relPath)
    (hc : commit h f.name = .ok gitCommit)
    (h0 : lineNumber f.body f.runeOffset0 true = some l0)
    (h1 : lineNumber f.body f.runeOffset1 false = some l1) :
    main1 h fuel =
      some { stdout := linkURL gitRepo gitCommit relPath l0 l1 ++ "\n".toList, err := none } := by
  have hs : ∀ u : GoString, Sprintf "%s\n".toList [Arg.str u] = u ++ "\n".toList := by
    intro u
    simp [Sprintf]
  simp only [main1, hf, hr, hp, hc, h0, h1, hs]

/-! ## Reading the body: the scripted transport -/

theorem readBodyLoop_scripted (cs : List (List Byte)) (final : Error)
    (hc : ∀ c ∈ cs, c.length ≤ 8000) :
    ∀ (n i fuel : Nat) (buf body : List Byte), i + n = cs.length → n < fuel →
      buf.length = 8000 →
      readBodyLoop (scripted cs final) fuel i buf body =
        some (if final = Error.EOF then .ok (body ++ (cs.drop i).flatten) else .error final) := by
  intro n
  induction n with
  | zero =>
    intro i fuel buf body hi hf _
    obtain ⟨f, rfl⟩ : ∃ f, fuel = f + 1 := ⟨fuel - 1, by omega⟩
    have hget : cs.get? i = none := by
      rw [List.get?_eq_none]
      omega
    have hdrop : cs.drop i = [] := List.drop_eq_nil_of_le (by omega)
    simp only [readBodyLoop, winRead, scripted, hget, hdrop, List.flatten_nil, List.append_nil]
    by_cases he : final = Error.EOF
    · simp [he]
    · simp [he]
  | succ n ih =>
    intro i fuel buf body hi hf hbuf
    obtain ⟨f, rfl⟩ : ∃ f, fuel = f + 1 := ⟨fuel - 1, by omega⟩
    have hlt : i < cs.length := by omega
    have hget : cs.get? i = some cs[i] := by
      rw [List.get?_eq_getElem?]
      exact List.getElem?_eq_getElem hlt
    have hlen : cs[i].length ≤ 8000 := hc _ (List.getElem_mem _)
    have hmin : min cs[i].length buf.length = cs[i].length := by
      rw [hbuf]
      exact Nat.min_eq_left hlen
    have hdrop : cs.drop i = cs[i] :: cs.drop (i + 1) := List.drop_eq_getElem_cons hlt
    simp only [readBodyLoop, winRead, scripted, hget, hmin, List.take_length]
    simp only [reduceCtorEq, if_false, List.take_left']
    rw [ih (i + 1) f _ _ (by omega) (by omega) (by simp [hbuf]; omega), hdrop,
      List.flatten_cons, List.append_assoc]

theorem selectionHost_file (q0 q1 : Int) :
    acmeReadCurrentFile (selectionHost q0 q1) 3 =
      some (.ok { name := "/src/cmd/main.go".toList, body := oneTwoThree,
                  runeOffset0 := q0, runeOffset1 := q1 }) := by
  have hb : readBody 3 (selectionWin q0 q1) = some (.ok oneTwoThree) :=
    (readBodyLoop_scripted [asciiBytes "one\ntwo\n", asciiBytes "three\n"] Error.EOF
      (by decide) 2 0 3 (List.replicate 8000 0) [] rfl (by decide)
      (List.length_replicate _ _)).trans rfl
  have hi : Index "/src/cmd/main.go Del Snarf | Look ".toList " ".toList = 16 := by decide
  have ht : (selectionWin q0 q1).tag = .ok "/src/cmd/main.go Del Snarf | Look ".toList := rfl
  have hw : acmeCurrentWin (selectionHost q0 q1) = .ok (selectionWin q0 q1) := rfl
  have h1 : (selectionWin q0 q1).readAddr1 = .ok (0, 0) := rfl
  have h2 : (selectionWin q0 q1).ctl = .ok () := rfl
  have h3 : (selectionWin q0 q1).readAddr2 = .ok (q0, q1) := rfl
  simp only [acmeReadCurrentFile, hw, h1, h2, h3, hb, ht, hi]
  rfl

theorem selectionHost_repo (q0 q1 : Int) (dir : GoString) :
    repo (selectionHost q0 q1) dir = .ok "owner/repo".toList := by
  rfl

theorem selectionHost_relativeFilename (q0 q1 : Int) (f : GoString) :
    relativeFilename (selectionHost q0 q1) f = .ok "cmd/main.go".toList := by
  rfl

theorem selectionHost_commit (q0 q1 : Int) (f : GoString) :
    commit (selectionHost q0 q1) f = .ok "c0ffee".toList := by
  rfl

/-! ## The claims -/

/-- C1: in start mode, for every buffer `b` of `N` runes and every offset `0 ≤ o < N`,
`lineNumber(b, o, true)` returns one more than the number of newline runes among the
first `o` runes of `b`; in particular offset 0 gives line 1, and an offset just after a
newline gives the line after the one of that newline. -/
theorem lineNumber_start_reference (b : List Byte) (o : Nat) (h : o < (runes b).length) :
    lineNumber b (o : Int) true = some (1 + (countNL ((runes b).take o) : Int)) ∧
    lineNumber b 0 true = some 1 ∧
    (∀ j, o = j + 1 → (runes b)[j]? = some 10 →
      lineNumber b (o : Int) true = some (lineOfRune (runes b) j + 1)) := by
  refine ⟨lineNumber_start_in b o h, ?_, ?_⟩
  · have := lineNumber_start_in b 0 (by omega)
    simpa [lineOfRune, countNL] using this
  · intro j hj hnl
    subst hj
    rw [lineNumber_start_in b _ h]
    simp only [lineOfRune, countNL, List.take_succ, hnl, List.count_append]
    simp
    ring

/-- C1 at "ab\ncd", offset 3 (the first rune of line 2). -/
theorem lineNumber_start_reference_witness :
    lineNumber (asciiBytes "ab\ncd") ((3 : Nat) : Int) true =
        some (1 + (countNL ((runes (asciiBytes "ab\ncd")).take 3) : Int)) ∧
    lineNumber (asciiBytes "ab\ncd") 0 true = some 1 ∧
    (∀ j, 3 = j + 1 → (runes (asciiBytes "ab\ncd"))[j]? = some 10 →
      lineNumber (asciiBytes "ab\ncd") ((3 : Nat) : Int) true =
        some (lineOfRune (runes (asciiBytes "ab\ncd")) j + 1)) :=
  lineNumber_start_reference (asciiBytes "ab\ncd") 3 (by decide)

/-- C2: in end mode, for every non-empty buffer `b` of `N` runes and every offset
`0 ≤ o ≤ N`, `lineNumber(b, o, false)` returns one more than the number of newline
runes among the first `max(o,1) - 1` runes of `b`; for "ab\ncd" offset 3 gives 1 (and
start mode gives 2), and for "abc" offset 3 gives 1. -/
theorem lineNumber_end_reference (b : List Byte) (o : Nat) (hb : b ≠ [])
    (h : o ≤ (runes b).length) :
    lineNumber b (o : Int) false = some (1 + (countNL ((runes b).take (max o 1 - 1)) : Int)) ∧
    lineNumber b 0 false = some 1 ∧
    lineNumber (asciiBytes "ab\ncd") 3 false = some 1 ∧
    lineNumber (asciiBytes "ab\ncd") 3 true = some 2 ∧
    lineNumber (asciiBytes "abc") 3 false = some 1 := by
  have hN := runes_length_pos b hb
  refine ⟨lineNumber_end_in b o hN h, ?_, by decide, by decide, by decide⟩
  have := lineNumber_end_in b 0 hN (by omega)
  simpa [lineOfRune, countNL] using this

/-- C2 at "a\n\nb", offset 3 (just after the second newline). -/
theorem lineNumber_end_reference_witness :
    lineNumber (asciiBytes "a\n\nb") ((3 : Nat) : Int) false =
        some (1 + (countNL ((runes (asciiBytes "a\n\nb")).take (max 3 1 - 1)) : Int)) ∧
    lineNumber (asciiBytes "a\n\nb") 0 false = some 1 ∧
    lineNumber (asciiBytes "ab\ncd") 3 false = some 1 ∧
    lineNumber (asciiBytes "ab\ncd") 3 true = some 2 ∧
    lineNumber (asciiBytes "abc") 3 false = some 1 :=
  lineNumber_end_reference (asciiBytes "a\n\nb") 3 (by decide) (by decide)

/-- C6: when the scan ends without the offset condition being met (start mode with
offset `o ≥ N`, end mode with offset `o > N`, or an empty buffer), `lineNumber` returns
the number `k` of newline runes of the buffer if `k ≥ 1` and 1 if `k = 0`; the empty
buffer gives 1 for every offset in both modes. -/
theorem lineNumber_end_of_buffer (b : List Byte) (o : Int) (start : Bool)
    (h : (start = true ∧ ((runes b).length : Int) ≤ o) ∨
         (start = false ∧ ((runes b).length : Int) < o) ∨ b = []) :
    lineNumber b o start =
        some (if 1 ≤ countNL (runes b) then (countNL (runes b) : Int) else 1) ∧
    (∀ (o1 : Int) (start1 : Bool), lineNumber [] o1 start1 = some 1) := by
  have hnil : ∀ (o1 : Int) (start1 : Bool), lineNumber [] o1 start1 = some 1 := by
    intro o1 start1
    simp [lineNumber_scan, runes_nil, scanRunes]
  refine ⟨?_, hnil⟩
  rcases h with ⟨hs, ho⟩ | ⟨hs, ho⟩ | hb
  · exact lineNumber_fall b o start (fun _ => ho) (fun h => by simp [hs] at h)
  · exact lineNumber_fall b o start (fun h => by simp [hs] at h) (fun _ => ho)
  · subst hb
    rw [hnil]
    simp [runes_nil, countNL]

/-- C6 at "a\nb\n", start mode, offset 4 (the end of the buffer). -/
theorem lineNumber_end_of_buffer_witness :
    lineNumber (asciiBytes "a\nb\n") 4 true =
        some (if 1 ≤ countNL (runes (asciiBytes "a\nb\n")) then
          (countNL (runes (asciiBytes "a\nb\n")) : Int) else 1) ∧
    (∀ (o1 : Int) (start1 : Bool), lineNumber [] o1 start1 = some 1) :=
  lineNumber_end_of_buffer (asciiBytes "a\nb\n") 4 true (Or.inl ⟨rfl, by decide⟩)

/-- C3, as stated, fails: in "a\nb" the empty selection at offset 2 (the start of line
2) has start line 2 and end line 1; in "\na" the offsets 1 and 3 (the second beyond the
end of the buffer) have start line 2 and end line 1. -/
theorem lineRange_end_before_start :
    ((0 : Int) ≤ 2 ∧ (2 : Int) ≤ 2 ∧
      lineNumber (asciiBytes "a\nb") 2 true = some 2 ∧
      lineNumber (asciiBytes "a\nb") 2 false = some 1 ∧ (1 : Int) < 2) ∧
    ((0 : Int) ≤ 1 ∧ (1 : Int) ≤ 3 ∧
      lineNumber (asciiBytes "\na") 1 true = some 2 ∧
      lineNumber (asciiBytes "\na") 3 false = some 1 ∧ (1 : Int) < 2) := by
  decide

/-- C3, amended: for every buffer of `N` runes and offsets
`0 ≤ selectionStart ≤ selectionEnd`, both line numbers are returned and the end line is
at least the start line minus one; the end line is at least the start line whenever
`selectionStart < selectionEnd ≤ N`; for an empty selection on the first rune of a line
after the first (`selectionStart = selectionEnd = j + 1 < N` with rune `j` a newline)
the end line is the start line minus one; and whenever the end line is not above the
start line, a run of `main1` whose collaborators succeed prints the link with the
single-line fragment `#L<startLine>`. -/
theorem lineRange_ordered (b : List Byte) (s e : Nat) (hse : s ≤ e) :
    ∃ l0 l1 : Int, lineNumber b (s : Int) true = some l0 ∧
      lineNumber b (e : Int) false = some l1 ∧
      l0 ≤ l1 + 1 ∧
      (s < e → e ≤ (runes b).length → l0 ≤ l1) ∧
      (∀ j : Nat, s = j + 1 → e = j + 1 → j + 1 < (runes b).length →
        (runes b)[j]? = some 10 → l1 = l0 - 1) ∧
      (∀ (h : Host) (fuel : Nat) (f : acmeFile) (gitRepo relPath gitCommit : GoString),
        acmeReadCurrentFile h fuel = some (.ok f) → f.body = b →
        f.runeOffset0 = (s : Int) → f.runeOffset1 = (e : Int) →
        repo h (h.filepathDir f.name) = .ok gitRepo →
        relativeFilename h f.name = .ok relPath → commit h f.name = .ok gitCommit →
        l1 ≤ l0 →
        main1 h fuel =
          some { stdout := blobURL gitRepo gitCommit relPath ++ "#L".toList ++ formatInt l0 ++
                   "\n".toList,
                 err := none }) := by
  obtain ⟨l0, h0, hs1, hs2, hs3⟩ := startLine_cases b s
  obtain ⟨l1, h1, he1, he2, he3⟩ := endLine_cases b e
  have hk := countNL_take_le_all (runes b) s
  have hm1 := countNL_take_le (runes b) s (max e 1 - 1 + 1) (by omega)
  have hm2 := countNL_take_succ_le (runes b) (max e 1 - 1)
  have hfull : (runes b).length ≤ max e 1 - 1 + 1 →
      countNL (runes b) ≤ countNL ((runes b).take (max e 1 - 1)) + 1 := by
    intro hle
    rw [List.take_of_length_le hle] at hm2
    exact hm2
  have hzero : (runes b).length = 0 → countNL (runes b) = 0 := by
    intro hN
    rw [List.length_eq_zero.mp hN]
    rfl
  refine ⟨l0, l1, h0, h1, ?_, ?_, ?_, ?_⟩
  · rcases Nat.lt_or_ge s (runes b).length with hs | hs
    · have e0 := hs1 hs
      rcases Nat.lt_or_ge (runes b).length e with hb | hb
      · rcases Nat.eq_zero_or_pos (countNL (runes b)) with hz | hz
        · have := he3 (Or.inl hb) hz
          omega
        · have := he2 (Or.inl hb) hz
          omega
      · have := he1 (by omega) hb
        omega
    · rcases Nat.eq_zero_or_pos (countNL (runes b)) with hz | hz
      · have e0 := hs3 hs hz
        rcases Nat.lt_or_ge (runes b).length e with hb | hb
        · have := he3 (Or.inl hb) hz
          omega
        · rcases Nat.eq_zero_or_pos (runes b).length with hN | hN
          · have := he3 (Or.inr hN) hz
            omega
          · have := he1 hN hb
            omega
      · have e0 := hs2 hs hz
        rcases Nat.lt_or_ge (runes b).length e with hb | hb
        · have := he2 (Or.inl hb) hz
          omega
        · have hN : 0 < (runes b).length := by
            rcases Nat.eq_zero_or_pos (runes b).length with hN | hN
            · have := hzero hN
              omega
            · exact hN
          have := he1 hN hb
          have := hfull (by omega)
          omega
  · intro hlt hle
    have e0 := hs1 (by omega)
    have e1 := he1 (by omega) hle
    have := countNL_take_le (runes b) s (max e 1 - 1) (by omega)
    omega
  · intro j hsj hej hjN hnl
    have e0 := hs1 (by omega)
    have e1 := he1 (by omega) (by omega)
    have hl := lineOfRune_succ_newline (runes b) j hnl
    have hmx : max e 1 - 1 = j := by omega
    simp only [lineOfRune] at hl
    rw [hmx] at e1
    rw [hsj] at e0
    omega
  · intro h fuel f gitRepo relPath gitCommit hf hb hq0 hq1 hr hp hc hle
    subst hb
    rw [← hq0] at h0
    rw [← hq1] at h1
    rw [main1_prints h fuel f gitRepo relPath gitCommit l0 l1 hf hr hp hc h0 h1, linkURL_eq,
      if_neg (by omega)]
    simp

/-- C3, amended, at "one\ntwo\nthree\n" with the empty selection at offset 4, the first
rune of line 2: the start line is 2, the end line is 1, and the host of the examples
prints the link with `#L2`. -/
theorem lineRange_ordered_witness :
    lineNumber oneTwoThree ((4 : Nat) : Int) true = some 2 ∧
    lineNumber oneTwoThree ((4 : Nat) : Int) false = some 1 ∧
    main1 (selectionHost 4 4) 3 =
      some { stdout := "https://github.com/owner/repo/blob/c0ffee/cmd/main.go#L2\n".toList,
             err := none } := by
  obtain ⟨l0, l1, h0, h1, _, _, hemp, hmain⟩ := lineRange_ordered oneTwoThree 4 4 (le_refl 4)
  have e0 : lineNumber oneTwoThree ((4 : Nat) : Int) true = some 2 := by decide
  have hl0 : l0 = 2 := Option.some.inj (h0.symm.trans e0)
  have hl1 : l1 = l0 - 1 := hemp 3 rfl rfl (by decide) (by decide)
  have hm := hmain (selectionHost 4 4) 3 _ "owner/repo".toList "cmd/main.go".toList
    "c0ffee".toList (selectionHost_file 4 4) rfl rfl rfl (selectionHost_repo 4 4 _)
    (selectionHost_relativeFilename 4 4 _) (selectionHost_commit 4 4 _) (by omega)
  subst hl0
  refine ⟨h0, ?_, ?_⟩
  · rw [h1, hl1]
    rfl
  · rw [hm]
    decide

/-- C4, at its failing input: in "a\nb" (three runes, no final newline) start mode
gives line 2 at offset 2 and line 1 at offset 3, and end mode gives line 2 at offset 3
and line 1 at offset 4, so the line number decreases as the offset increases. -/
theorem lineNumber_decreases_at_end :
    lineNumber (asciiBytes "a\nb") 2 true = some 2 ∧
    lineNumber (asciiBytes "a\nb") 3 true = some 1 ∧
    lineNumber (asciiBytes "a\nb") 3 false = some 2 ∧
    lineNumber (asciiBytes "a\nb") 4 false = some 1 := by
  decide

/-! ## The link printed for a selection -/

/-- C5: for a buffer of `N` runes and offsets `0 ≤ q0 < q1 ≤ N`, the start line `s` is
the line containing rune `q0`, the end line `e` is the line containing rune `q1 - 1`,
`e - s` is the number of newline runes among runes `q0 .. q1-2`, and the fragment of
the link is `#L<s>` when that number is 0 and `#L<s>-L<e>` otherwise, both in `linkURL`
and in what a run of `main1` on that buffer and selection prints; on
"one\ntwo\nthree\n" the offsets 4,7 give `#L2` and the offsets 4,13 give `#L2-L3`. -/
theorem link_names_selected_lines (b : List Byte) (q0 q1 : Nat) (h01 : q0 < q1)
    (h1 : q1 ≤ (runes b).length) :
    (∃ s e : Int, lineNumber b (q0 : Int) true = some s ∧
      lineNumber b (q1 : Int) false = some e ∧
      s = lineOfRune (runes b) q0 ∧ e = lineOfRune (runes b) (q1 - 1) ∧
      e - s = (countNL (((runes b).drop q0).take (q1 - 1 - q0)) : Int) ∧
      (∀ gitRepo gitCommit relPath : GoString,
        linkURL gitRepo gitCommit relPath s e =
          blobURL gitRepo gitCommit relPath ++
            (if countNL (((runes b).drop q0).take (q1 - 1 - q0)) = 0 then
              "#L".toList ++ formatInt s
             else "#L".toList ++ formatInt s ++ "-L".toList ++ formatInt e)) ∧
      (∀ (h : Host) (fuel : Nat) (f : acmeFile) (gitRepo relPath gitCommit : GoString),
        acmeReadCurrentFile h fuel = some (.ok f) → f.body = b →
        f.runeOffset0 = (q0 : Int) → f.runeOffset1 = (q1 : Int) →
        repo h (h.filepathDir f.name) = .ok gitRepo →
        relativeFilename h f.name = .ok relPath → commit h f.name = .ok gitCommit →
        main1 h fuel =
          some { stdout := blobURL gitRepo gitCommit relPath ++
                   (if countNL (((runes b).drop q0).take (q1 - 1 - q0)) = 0 then
                     "#L".toList ++ formatInt s
                    else "#L".toList ++ formatInt s ++ "-L".toList ++ formatInt e) ++
                   "\n".toList,
                 err := none })) ∧
    (lineNumber oneTwoThree 4 true = some 2 ∧ lineNumber oneTwoThree 7 false = some 2 ∧
      (∀ gitRepo gitCommit relPath : GoString,
        linkURL gitRepo gitCommit relPath 2 2 =
          blobURL gitRepo gitCommit relPath ++ "#L2".toList) ∧
      main1 (selectionHost 4 7) 3 =
        some { stdout := "https://github.com/owner/repo/blob/c0ffee/cmd/main.go#L2\n".toList,
               err := none }) ∧
    (lineNumber oneTwoThree 4 true = some 2 ∧ lineNumber oneTwoThree 13 false = some 3 ∧
      (∀ gitRepo gitCommit relPath : GoString,
        linkURL gitRepo gitCommit relPath 2 3 =
          blobURL gitRepo gitCommit relPath ++ "#L2-L3".toList) ∧
      main1 (selectionHost 4 13) 3 =
        some { stdout := "https://github.com/owner/repo/blob/c0ffee/cmd/main.go#L2-L3\n".toList,
               err := none }) := by
  refine ⟨?_, ⟨by decide, by decide, ?_, ?_⟩, ⟨by decide, by decide, ?_, ?_⟩⟩
  · have hadd := countNL_take_add (runes b) q0 (q1 - 1 - q0)
    have hq : q0 + (q1 - 1 - q0) = q1 - 1 := by omega
    have hm : max q1 1 - 1 = q1 - 1 := by omega
    rw [hq] at hadd
    have hd : lineOfRune (runes b) (q1 - 1) - lineOfRune (runes b) q0 =
        (countNL (((runes b).drop q0).take (q1 - 1 - q0)) : Int) := by
      simp only [lineOfRune]
      omega
    have hs : lineNumber b (q0 : Int) true = some (lineOfRune (runes b) q0) :=
      lineNumber_start_in b q0 (by omega)
    have he : lineNumber b (q1 : Int) false = some (lineOfRune (runes b) (q1 - 1)) := by
      rw [lineNumber_end_in b q1 (by omega) h1, hm]
    have hfrag : (if lineOfRune (runes b) (q1 - 1) > lineOfRune (runes b) q0 then
          "#L".toList ++ formatInt (lineOfRune (runes b) q0) ++ "-L".toList ++
            formatInt (lineOfRune (runes b) (q1 - 1))
        else "#L".toList ++ formatInt (lineOfRune (runes b) q0)) =
        (if countNL (((runes b).drop q0).take (q1 - 1 - q0)) = 0 then
          "#L".toList ++ formatInt (lineOfRune (runes b) q0)
         else "#L".toList ++ formatInt (lineOfRune (runes b) q0) ++ "-L".toList ++
            formatInt (lineOfRune (runes b) (q1 - 1))) := by
      by_cases hz : countNL (((runes b).drop q0).take (q1 - 1 - q0)) = 0
      · rw [hz] at hd
        have : ¬ lineOfRune (runes b) (q1 - 1) > lineOfRune (runes b) q0 := by
          simp only [Nat.cast_zero] at hd
          omega
        rw [if_neg this, if_pos hz]
      · have : lineOfRune (runes b) (q1 - 1) > lineOfRune (runes b) q0 := by omega
        rw [if_pos this, if_neg hz]
    refine ⟨lineOfRune (runes b) q0, lineOfRune (runes b) (q1 - 1), hs, he, rfl, rfl, hd,
      ?_, ?_⟩
    · intro gitRepo gitCommit relPath
      rw [linkURL_eq, hfrag]
    · intro h fuel f gitRepo relPath gitCommit hf hb hq0 hq1 hr hp hc
      subst hb
      rw [← hq0] at hs
      rw [← hq1] at he
      rw [main1_prints h fuel f gitRepo relPath gitCommit _ _ hf hr hp hc hs he, linkURL_eq,
        hfrag]
  · intro gitRepo gitCommit relPath
    rw [linkURL_eq]
    rfl
  · rw [main1_prints (selectionHost 4 7) 3 _ "owner/repo".toList "cmd/main.go".toList
      "c0ffee".toList 2 2 (selectionHost_file 4 7) (selectionHost_repo 4 7 _)
      (selectionHost_relativeFilename 4 7 _) (selectionHost_commit 4 7 _) (by decide)
      (by decide)]
    decide
  · intro gitRepo gitCommit relPath
    rw [linkURL_eq]
    rfl
  · rw [main1_prints (selectionHost 4 13) 3 _ "owner/repo".toList "cmd/main.go".toList
      "c0ffee".toList 2 3 (selectionHost_file 4 13) (selectionHost_repo 4 13 _)
      (selectionHost_relativeFilename 4 13 _) (selectionHost_commit 4 13 _) (by decide)
      (by decide)]
    decide

/-- C5 at "one\ntwo\nthree\n" with the selection 0 to 7 ("one\ntwo"): the lines are 1
and 2 and the host of the examples prints the link with `#L1-L2`. -/
theorem link_names_selected_lines_witness :
    lineNumber oneTwoThree ((0 : Nat) : Int) true = some 1 ∧
    lineNumber oneTwoThree ((7 : Nat) : Int) false = some 2 ∧
    main1 (selectionHost 0 7) 3 =
      some { stdout := "https://github.com/owner/repo/blob/c0ffee/cmd/main.go#L1-L2\n".toList,
             err := none } := by
  obtain ⟨s, e, hs, he, hs1, he1, _, _, hmain⟩ :=
    (link_names_selected_lines oneTwoThree 0 7 (by decide) (by decide)).1
  have hm := hmain (selectionHost 0 7) 3 _ "owner/repo".toList "cmd/main.go".toList
    "c0ffee".toList (selectionHost_file 0 7) rfl rfl rfl (selectionHost_repo 0 7 _)
    (selectionHost_relativeFilename 0 7 _) (selectionHost_commit 0 7 _)
  have v1 : lineOfRune (runes oneTwoThree) 0 = 1 := by decide
  have v2 : lineOfRune (runes oneTwoThree) (7 - 1) = 2 := by decide
  rw [v1] at hs1
  rw [v2] at he1
  subst hs1
  subst he1
  refine ⟨hs, he, ?_⟩
  rw [hm]
  decide

/-- C7: for all strings `repo`, `commit`, `relPath` and all integers `l0 ≤ l1`, the
link is `https://github.com/<repo>/blob/<commit>/<relPath>` followed by `#L<l0>` when
`l0 = l1` and by `#L<l0>-L<l1>` when `l1 > l0`, the numbers in decimal; a run of
`main1` that obtained these strings and line numbers prints exactly that link and a
newline and returns no error; and a run of `main1` in which the window is read and the
git commands succeed always prints a link and returns no error. -/
theorem linkURL_composition (gitRepo gitCommit relPath : GoString) (l0 l1 : Int)
    (h : l0 ≤ l1) :
    linkURL gitRepo gitCommit relPath l0 l1 =
      "https://github.com/".toList ++ gitRepo ++ "/blob/".toList ++ gitCommit ++ "/".toList ++
        relPath ++
        (if l0 = l1 then "#L".toList ++ formatInt l0
         else "#L".toList ++ formatInt l0 ++ "-L".toList ++ formatInt l1) ∧
    (∀ (hst : Host) (fuel : Nat) (f : acmeFile),
      acmeReadCurrentFile hst fuel = some (.ok f) →
      repo hst (hst.filepathDir f.name) = .ok gitRepo →
      relativeFilename hst f.name = .ok relPath → commit hst f.name = .ok gitCommit →
      lineNumber f.body f.runeOffset0 true = some l0 →
      lineNumber f.body f.runeOffset1 false = some l1 →
      main1 hst fuel =
        some { stdout := "https://github.com/".toList ++ gitRepo ++ "/blob/".toList ++
                 gitCommit ++ "/".toList ++ relPath ++
                 (if l0 = l1 then "#L".toList ++ formatInt l0
                  else "#L".toList ++ formatInt l0 ++ "-L".toList ++ formatInt l1) ++
                 "\n".toList,
               err := none }) ∧
    (∀ (hst : Host) (fuel : Nat) (f : acmeFile),
      acmeReadCurrentFile hst fuel = some (.ok f) →
      repo hst (hst.filepathDir f.name) = .ok gitRepo →
      relativeFilename hst f.name = .ok relPath → commit hst f.name = .ok gitCommit →
      ∃ a b : Int, lineNumber f.body f.runeOffset0 true = some a ∧
        lineNumber f.body f.runeOffset1 false = some b ∧
        main1 hst fuel =
          some { stdout := linkURL gitRepo gitCommit relPath a b ++ "\n".toList,
                 err := none }) ∧
    linkURL "rogpeppe/agitlink".toList "c0ffee".toList "main.go".toList 178 201 =
      "https://github.com/rogpeppe/agitlink/blob/c0ffee/main.go#L178-L201".toList ∧
    linkURL "rogpeppe/agitlink".toList "c0ffee".toList "main.go".toList 42 42 =
      "https://github.com/rogpeppe/agitlink/blob/c0ffee/main.go#L42".toList := by
  have hlink : linkURL gitRepo gitCommit relPath l0 l1 =
      "https://github.com/".toList ++ gitRepo ++ "/blob/".toList ++ gitCommit ++ "/".toList ++
        relPath ++
        (if l0 = l1 then "#L".toList ++ formatInt l0
         else "#L".toList ++ formatInt l0 ++ "-L".toList ++ formatInt l1) := by
    rw [linkURL_eq, blobURL]
    by_cases he : l0 = l1
    · have : ¬ l1 > l0 := by omega
      rw [if_neg this, if_pos he]
    · have : l1 > l0 := by omega
      rw [if_pos this, if_neg he]
  refine ⟨hlink, ?_, ?_, by decide, by decide⟩
  · intro hst fuel f hf hr hp hc h0 h1
    rw [main1_prints hst fuel f gitRepo relPath gitCommit l0 l1 hf hr hp hc h0 h1, hlink]
  · intro hst fuel f hf hr hp hc
    have ha : ∃ a, lineNumber f.body f.runeOffset0 true = some a := ⟨_, lineNumber_scan _ _ _⟩
    have hb : ∃ b, lineNumber f.body f.runeOffset1 false = some b := ⟨_, lineNumber_scan _ _ _⟩
    obtain ⟨a, ha⟩ := ha
    obtain ⟨b, hb⟩ := hb
    exact ⟨a, b, ha, hb, main1_prints hst fuel f gitRepo relPath gitCommit a b hf hr hp hc ha hb⟩

/-- C7 for the host of the examples with the selection 0 to 13 (lines 1 to 3): the run
of `main1` prints the link with `#L1-L3`. -/
theorem linkURL_composition_witness :
    linkURL "owner/repo".toList "c0ffee".toList "cmd/main.go".toList 1 3 =
      "https://github.com/owner/repo/blob/c0ffee/cmd/main.go#L1-L3".toList ∧
    main1 (selectionHost 0 13) 3 =
      some { stdout := "https://github.com/owner/repo/blob/c0ffee/cmd/main.go#L1-L3\n".toList,
             err := none } := by
  obtain ⟨hl, hmain, _, _, _⟩ := linkURL_composition "owner/repo".toList "c0ffee".toList
    "cmd/main.go".toList 1 3 (by decide)
  have hm := hmain (selectionHost 0 13) 3 _ (selectionHost_file 0 13)
    (selectionHost_repo 0 13 _) (selectionHost_relativeFilename 0 13 _)
    (selectionHost_commit 0 13 _) (by decide) (by decide)
  refine ⟨?_, ?_⟩
  · rw [hl]
    decide
  · rw [hm]
    decide

/-! ## Reading the body -/

/-- C8: when the reads of the body are answered with chunks `c1 .. cm`, each at most
8000 bytes long, and then with end-of-stream, `readBody` returns `c1 ++ ... ++ cm`
without error, whatever `m` is; when they are followed instead by an error other than
end-of-stream, `readBody` returns that error and no body. -/
theorem readBody_reconstructs (win : Win) (cs : List (List Byte)) (final : Error)
    (fuel : Nat) (hw : win.body = scripted cs final) (hc : ∀ c ∈ cs, c.length ≤ 8000)
    (hf : cs.length < fuel) :
    (final = Error.EOF → readBody fuel win = some (.ok cs.flatten)) ∧
    (final ≠ Error.EOF → readBody fuel win = some (.error final)) := by
  have h := readBodyLoop_scripted cs final hc cs.length 0 fuel (List.replicate 8000 0) []
    (by omega) hf (List.length_replicate _ _)
  unfold readBody
  rw [hw, h]
  constructor
  · intro he
    simp [he]
  · intro he
    simp [he]

/-- C8 for the body of the example window, delivered in two chunks. -/
theorem readBody_reconstructs_witness :
    (Error.EOF = Error.EOF → readBody 3 (exampleWin []) =
      some (.ok [asciiBytes "one\ntwo\n", asciiBytes "three\n"].flatten)) ∧
    (Error.EOF ≠ Error.EOF → readBody 3 (exampleWin []) = some (.error Error.EOF)) :=
  readBody_reconstructs (exampleWin []) [asciiBytes "one\ntwo\n", asciiBytes "three\n"]
    Error.EOF 3 rfl (by decide) (by decide)

/-! ## The remote URL and the tag -/

theorem len_append (a b : GoString) : len (a ++ b) = len a + len b := by
  simp [len]

theorem TrimPrefix_append (pre rest : GoString) : TrimPrefix (pre ++ rest) pre = rest := by
  have h : pre.isPrefixOf (pre ++ rest) = true :=
    List.isPrefixOf_iff_prefix.mpr (List.prefix_append _ _)
  simp [TrimPrefix, h]

theorem TrimPrefix_of_not_prefix (s pre : GoString) (h : ¬ pre <+: s) :
    TrimPrefix s pre = s := by
  have h1 : pre.isPrefixOf s = false := by
    rw [Bool.eq_false_iff]
    intro hp
    exact h (List.isPrefixOf_iff_prefix.mp hp)
  simp [TrimPrefix, h1]

/-- C9: for every string `s` emitted by the remote-URL command, `repo` fails if and
only if `s` does not begin with "git@github.com:"; when `s` begins with it, `repo`
returns the rest of `s` with leading and trailing white space trimmed (the prefix
followed by "owner/repo.git\n" yields "owner/repo.git"). -/
theorem repo_strips_prefix (h : Host) (dir s : GoString)
    (hs : h.gitRemoteGetUrl dir = .ok s) :
    ((∃ err, repo h dir = .error err) ↔ ¬ remotePrefix <+: s) ∧
    (∀ rest, s = remotePrefix ++ rest → repo h dir = .ok (TrimSpace rest)) ∧
    (s = remotePrefix ++ "owner/repo.git\n".toList →
      repo h dir = .ok "owner/repo.git".toList) := by
  have hyes : ∀ rest, s = remotePrefix ++ rest → repo h dir = .ok (TrimSpace rest) := by
    intro rest hr
    have hl : len remotePrefix = 15 := by decide
    have hne : ¬ len rest = len (remotePrefix ++ rest) := by
      rw [len_append, hl]
      omega
    simp only [repo, hs, hr, TrimPrefix_append, hne, if_false]
  refine ⟨?_, hyes, ?_⟩
  · constructor
    · rintro ⟨err, he⟩ ⟨rest, hr⟩
      rw [hyes rest hr.symm] at he
      cases he
    · intro hp
      refine ⟨Error.unexpectedPrefix s remotePrefix, ?_⟩
      simp only [repo, hs, TrimPrefix_of_not_prefix s remotePrefix hp, if_true]
  · intro hr
    rw [hyes _ hr]
    exact congrArg Except.ok (by decide)

/-- C9 for the remote URL "git@github.com:owner/repo.git\n". -/
theorem repo_strips_prefix_witness :
    ((∃ err, repo (exampleHost [] (remotePrefix ++ "owner/repo.git\n".toList)) [] =
        .error err) ↔ ¬ remotePrefix <+: remotePrefix ++ "owner/repo.git\n".toList) ∧
    (∀ rest, remotePrefix ++ "owner/repo.git\n".toList = remotePrefix ++ rest →
      repo (exampleHost [] (remotePrefix ++ "owner/repo.git\n".toList)) [] =
        .ok (TrimSpace rest)) ∧
    (remotePrefix ++ "owner/repo.git\n".toList = remotePrefix ++ "owner/repo.git\n".toList →
      repo (exampleHost [] (remotePrefix ++ "owner/repo.git\n".toList)) [] =
        .ok "owner/repo.git".toList) :=
  repo_strips_prefix (exampleHost [] (remotePrefix ++ "owner/repo.git\n".toList)) []
    (remotePrefix ++ "owner/repo.git\n".toList) rfl

theorem IndexFrom_space : ∀ (t : GoString) (i : Int),
    (' ' ∉ t → IndexFrom " ".toList t i = -1) ∧
    (' ' ∈ t → ∃ k : Nat, IndexFrom " ".toList t i = i + k ∧ ' ' ∉ t.take k ∧
      t = t.take k ++ ' ' :: t.drop (k + 1)) := by
  intro t
  induction t with
  | nil =>
    intro i
    constructor
    · intro _
      simp [IndexFrom]
    · intro h
      simp at h
  | cons c cs ih =>
    intro i
    have hpre : (" ".toList).isPrefixOf (c :: cs) = (' ' == c) := by
      show ([' '] : List Char).isPrefixOf (c :: cs) = (' ' == c)
      simp [List.isPrefixOf]
    by_cases hc : ' ' = c
    · have hb : (' ' == c) = true := beq_iff_eq.mpr hc
      constructor
      · intro h
        exact absurd (hc ▸ List.mem_cons_self _ _) h
      · intro _
        refine ⟨0, ?_, by simp, ?_⟩
        · simp only [IndexFrom, hpre, hb, if_true]
          simp
        · simp only [List.take_zero, List.nil_append, zero_add, List.drop_succ_cons,
            List.drop_zero]
          rw [hc]
    · have hb : (' ' == c) = false := beq_eq_false_iff_ne.mpr hc
      constructor
      · intro h
        have h1 : ' ' ∉ cs := fun hm => h (List.mem_cons_of_mem _ hm)
        simp only [IndexFrom, hpre, hb, Bool.false_eq_true, if_false]
        exact (ih (i + 1)).1 h1
      · intro h
        have h1 : ' ' ∈ cs := by
          rcases List.mem_cons.mp h with h | h
          · exact absurd h hc
          · exact h
        obtain ⟨k, hk, hno, hsplit⟩ := (ih (i + 1)).2 h1
        refine ⟨k + 1, ?_, ?_, ?_⟩
        · simp only [IndexFrom, hpre, hb, Bool.false_eq_true, if_false]
          rw [hk]
          push_cast
          ring
        · simp only [List.take_succ_cons, List.mem_cons, not_or]
          exact ⟨hc, hno⟩
        · simp only [List.take_succ_cons, List.drop_succ_cons, List.cons_append]
          rw [← hsplit]

/-- C10: when every read before the tag has succeeded and the tag read gives `t`,
`acmeReadCurrentFile` fails if and only if `t` contains no space, and then `main1`
returns that error and prints nothing; otherwise the file name is the text of `t`
before its first space (it contains no space and `t = name ++ " " ++ rest`), and the
body and the two offsets are returned unchanged. -/
theorem tag_parsing (h : Host) (fuel : Nat) (win : Win) (a : Int × Int) (q0 q1 : Int)
    (body : List Byte) (t : GoString)
    (hw : acmeCurrentWin h = .ok win) (h1 : win.readAddr1 = .ok a) (h2 : win.ctl = .ok ())
    (h3 : win.readAddr2 = .ok (q0, q1)) (h4 : readBody fuel win = some (.ok body))
    (h5 : win.tag = .ok t) :
    ((∃ err, acmeReadCurrentFile h fuel = some (.error err)) ↔ ' ' ∉ t) ∧
    (' ' ∉ t → ∃ err, acmeReadCurrentFile h fuel = some (.error err) ∧
      main1 h fuel = some { stdout := [], err := some err }) ∧
    (' ' ∈ t → ∃ name rest : GoString,
      acmeReadCurrentFile h fuel =
        some (.ok { name := name, body := body, runeOffset0 := q0, runeOffset1 := q1 }) ∧
      ' ' ∉ name ∧ t = name ++ ' ' :: rest) := by
  have hno : ' ' ∉ t → acmeReadCurrentFile h fuel =
      some (.error (Error.msg "strange tag with no spaces")) := by
    intro hn
    have hi := (IndexFrom_space t 0).1 hn
    simp only [acmeReadCurrentFile, hw, h1, h2, h3, h4, h5, Index, hi, if_true]
  have hyes : ' ' ∈ t → ∃ name rest : GoString,
      acmeReadCurrentFile h fuel =
        some (.ok { name := name, body := body, runeOffset0 := q0, runeOffset1 := q1 }) ∧
      ' ' ∉ name ∧ t = name ++ ' ' :: rest := by
    intro hm
    obtain ⟨k, hk, hnot, hsplit⟩ := (IndexFrom_space t 0).2 hm
    refine ⟨t.take k, t.drop (k + 1), ?_, hnot, hsplit⟩
    have hne : ¬ ((0 : Int) + (k : Int) = -1) := by omega
    have hto : ((0 : Int) + (k : Int)).toNat = k := by simp
    simp only [acmeReadCurrentFile, hw, h1, h2, h3, h4, h5, Index, hk, hne, if_false, hto]
  refine ⟨?_, ?_, hyes⟩
  · constructor
    · rintro ⟨err, he⟩ hm
      obtain ⟨name, rest, hok, _, _⟩ := hyes hm
      rw [hok] at he
      cases he
    · intro hn
      exact ⟨_, hno hn⟩
  · intro hn
    refine ⟨_, hno hn, ?_⟩
    simp only [main1, hno hn]

/-- C10 for the tag "/src/main.go Del Snarf" of the example window. -/
theorem tag_parsing_witness :
    ((∃ err, acmeReadCurrentFile (exampleHost "/src/main.go Del Snarf".toList []) 3 =
        some (.error err)) ↔ ' ' ∉ "/src/main.go Del Snarf".toList) ∧
    (' ' ∉ "/src/main.go Del Snarf".toList → ∃ err,
      acmeReadCurrentFile (exampleHost "/src/main.go Del Snarf".toList []) 3 =
        some (.error err) ∧
      main1 (exampleHost "/src/main.go Del Snarf".toList []) 3 =
        some { stdout := [], err := some err }) ∧
    (' ' ∈ "/src/main.go Del Snarf".toList → ∃ name rest : GoString,
      acmeReadCurrentFile (exampleHost "/src/main.go Del Snarf".toList []) 3 =
        some (.ok { name := name, body := oneTwoThree, runeOffset0 := 4, runeOffset1 := 13 }) ∧
      ' ' ∉ name ∧ "/src/main.go Del Snarf".toList = name ++ ' ' :: rest) :=
  tag_parsing (exampleHost "/src/main.go Del Snarf".toList []) 3
    (exampleWin "/src/main.go Del Snarf".toList) (0, 0) 4 13 oneTwoThree
    "/src/main.go Del Snarf".toList rfl rfl rfl rfl
    ((readBodyLoop_scripted [asciiBytes "one\ntwo\n", asciiBytes "three\n"] Error.EOF
      (by decide) 2 0 3 (List.replicate 8000 0) [] rfl (by decide)
      (List.length_replicate _ _)).trans rfl) rfl

end Agitlink
